import Mathlib

/-!
Verification of the delivery-dispatch allocation core.

Shallow embedding of the Python sources:
  - `src/utils.py` (time conflict, capabilities, priority, categorization)
  - `src/src/validator.py` (feasibility, buffer, post-hoc validation)
  - `src/src/ai_allocator.py` (staged orchestrator, proposal parsing, merge)
  - `src/src/allocator.py` (aggregate metrics)
  - `src/src/preprocessor.py` (driver categorization, per-category sorting)

Modelling conventions:
  - Timestamps are integer minutes (the source parses ISO datetimes and only
    compares them and takes differences in minutes, so an integer timeline is
    an exact model at minute granularity).
  - Python dicts keyed by strings are association lists with insert-or-replace
    update (`upsert`), which preserves first-insertion key order like CPython.
  - Optional dict fields accessed with `.get(key, default)` are `Option` fields
    read with `getD`.
  - The LLM call is an external untrusted proposer: a function returning
    `Except Unit (List Proposal)`; `Except.error` models any raised exception
    (transport error or malformed/unparsable response).
  - Division by zero (a Python `ZeroDivisionError`) is modelled by `Option`:
    `merge_allocations` returns `none` when the source would raise.
  - The stable sorts (`list.sort` / `sorted` with a key) are modelled with
    `List.insertionSort` over the same key; every property proved below is
    invariant under permutation, so the particular stable algorithm is
    irrelevant.
-/

namespace Dispatch

/-- Association-list lookup, mirroring Python `dict[k]` / `k in dict`. -/
def alookup {α : Type} (m : List (String × α)) (k : String) : Option α :=
  (m.find? (fun p => p.1 == k)).map (fun p => p.2)

/-- Insert-or-replace, mirroring Python `dict[k] = v` (existing keys keep their
position, new keys are appended, as in CPython dicts). -/
def upsert {α : Type} : List (String × α) → String → α → List (String × α)
  | [], k, v => [(k, v)]
  | (k0, v0) :: rest, k, v =>
    if k0 = k then (k, v) :: rest else (k0, v0) :: upsert rest k v

/-- Build a dict from a list, mirroring `{key(x): x for x in xs}`. -/
def buildMap {α : Type} (key : α → String) (xs : List α) : List (String × α) :=
  xs.foldl (fun m x => upsert m (key x) x) []

/-- Order record (`orders.json` entries).  Fields the allocation core reads.
`region` is read with `.get`, hence optional; time fields are required by
`validate_data` and are modelled as minutes. -/
structure Order where
  order_id : String
  pickup_time : Int
  setup_time : Int
  teardown_time : Int
  region : Option String
  tags : List String
deriving DecidableEq

/-- Driver record (`drivers.json` entries).  `max_orders_per_day` is accessed
with `.get(..., default)` throughout the source, hence optional here. -/
structure Driver where
  driver_id : String
  preferred_region : Option String
  capabilities : List String
  max_orders_per_day : Option Nat
deriving DecidableEq

/-- The slice of `Config` the allocation core reads. -/
structure Config where
  min_buffer_time_minutes : Int
deriving DecidableEq

/-- `utils.check_time_conflict`: two orders conflict iff their
[pickup, teardown] windows overlap; touching boundaries do not conflict. -/
def check_time_conflict (order1 order2 : Order) : Bool :=
  if order1.teardown_time ≤ order2.pickup_time ∨
      order2.teardown_time ≤ order1.pickup_time then false else true

/-- `utils.has_required_capabilities`: tag-driven capability gate. -/
def has_required_capabilities (driver : Driver) (order : Order) : Bool :=
  let order_tags := order.tags
  let driver_capabilities := driver.capabilities
  if "wedding" ∈ order_tags ∨ "vip" ∈ order_tags then
    if "wedding" ∈ order_tags ∧ "wedding" ∉ driver_capabilities then false
    else if "vip" ∈ order_tags ∧ "vip" ∉ driver_capabilities then false
    else if "corporate" ∈ order_tags ∧ "corporate" ∉ driver_capabilities then
      false
    else true
  else if "corporate" ∈ order_tags ∧ "corporate" ∉ driver_capabilities then
    false
  else true

/-- `utils.get_order_priority`: numeric priority score from the tag set. -/
def get_order_priority (order : Order) : Nat :=
  let tags := order.tags
  if "vip" ∈ tags ∧ "wedding" ∈ tags then 100
  else if "vip" ∈ tags then 90
  else if "wedding" ∈ tags then 80
  else if "corporate" ∈ tags ∧ "early_setup" ∈ tags then 60
  else if "corporate" ∈ tags then 50
  else 30

/-- The five priority buckets produced by `utils.categorize_orders_by_priority`. -/
structure OrderCategories where
  vip_wedding : List Order
  vip : List Order
  wedding : List Order
  corporate : List Order
  regular : List Order
deriving DecidableEq

/-- The loop body of `utils.categorize_orders_by_priority`. -/
def categorizeStep (cats : OrderCategories) (order : Order) : OrderCategories :=
  let tags := order.tags
  if "vip" ∈ tags ∧ "wedding" ∈ tags then
    { cats with vip_wedding := cats.vip_wedding ++ [order] }
  else if "vip" ∈ tags then { cats with vip := cats.vip ++ [order] }
  else if "wedding" ∈ tags then { cats with wedding := cats.wedding ++ [order] }
  else if "corporate" ∈ tags then
    { cats with corporate := cats.corporate ++ [order] }
  else { cats with regular := cats.regular ++ [order] }

/-- `utils.categorize_orders_by_priority`: first-match-wins bucketing. -/
def categorize_orders_by_priority (orders : List Order) : OrderCategories :=
  orders.foldl categorizeStep ⟨[], [], [], [], []⟩

/-- The categorization viewed as the Python dict it is in the source
(the five keys, in insertion order). -/
def OrderCategories.toDict (c : OrderCategories) : List (String × List Order) :=
  [("vip_wedding", c.vip_wedding), ("vip", c.vip), ("wedding", c.wedding),
   ("corporate", c.corporate), ("regular", c.regular)]

/-- `validator.has_sufficient_buffer`: gap (in minutes) between the earlier
teardown and the later pickup must reach `min_buffer_time_minutes`; overlapping
orders never satisfy the buffer. -/
def has_sufficient_buffer (order1 order2 : Order) (config : Config) : Bool :=
  let min_buffer := config.min_buffer_time_minutes
  let teardown1 := order1.teardown_time
  let pickup2 := order2.pickup_time
  let teardown2 := order2.teardown_time
  let pickup1 := order1.pickup_time
  if teardown1 ≤ pickup2 then decide (pickup2 - teardown1 ≥ min_buffer)
  else if teardown2 ≤ pickup1 then decide (pickup1 - teardown2 ≥ min_buffer)
  else false

/-- The reason tags of `validate_order_feasibility` (the source formats these
as strings; the payloads below carry exactly the data those strings embed). -/
inductive FeasReason where
  | feasible : FeasReason
  | atCapacity (current maxCapacity : Nat) : FeasReason
  | missingCapabilities (tags capabilities : List String) : FeasReason
  | timeConflict (order_id : String) : FeasReason
  | insufficientBuffer (order_id : String) : FeasReason
deriving DecidableEq

/-- `validator.validate_order_feasibility`: capacity, then capabilities, then
overlap against each assigned order, then buffer against each assigned order,
short-circuiting on the first failure. -/
def validate_order_feasibility (order : Order) (driver : Driver)
    (assigned_orders : List Order) (config : Config) : Bool × FeasReason :=
  let max_capacity := driver.max_orders_per_day.getD 0
  if assigned_orders.length ≥ max_capacity then
    (false, .atCapacity assigned_orders.length max_capacity)
  else if !(has_required_capabilities driver order) then
    (false, .missingCapabilities order.tags driver.capabilities)
  else
    match assigned_orders.find? (fun a => check_time_conflict order a) with
    | some a => (false, .timeConflict a.order_id)
    | none =>
      match assigned_orders.find?
          (fun a => !(has_sufficient_buffer order a config)) with
      | some a => (false, .insufficientBuffer a.order_id)
      | none => (true, .feasible)

/-- The three driver pools of `preprocessor._categorize_drivers`. -/
structure DriverCategories where
  wedding_capable : List Driver
  corporate_capable : List Driver
  general : List Driver
deriving DecidableEq

/-- `preprocessor._categorize_drivers`: first-match-wins driver bucketing. -/
def categorizeDrivers (drivers : List Driver) : DriverCategories :=
  drivers.foldl (fun cats driver =>
    let capabilities := driver.capabilities
    if "wedding" ∈ capabilities ∨ "vip" ∈ capabilities then
      { cats with wedding_capable := cats.wedding_capable ++ [driver] }
    else if "corporate" ∈ capabilities ∨ "seminars" ∈ capabilities then
      { cats with corporate_capable := cats.corporate_capable ++ [driver] }
    else { cats with general := cats.general ++ [driver] })
    ⟨[], [], []⟩

/-- One proposal entry of the external Assignment Proposer (one element of the
parsed `allocations` array of the LLM response); `driver_id` is read with
`.get`, hence optional. -/
structure Proposal where
  driver_id : Option String
  order_ids : List String
  reasoning : String

/-- The external Assignment Proposer: receives the stage name, the stage's
orders, the capacity-filtered drivers and the current per-driver assignments
(everything `_build_allocation_prompt` serializes), and either returns parsed
proposals or fails (`Except.error` = raised exception / malformed response). -/
def Proposer : Type :=
  String → List Order → List Driver → List (String × List Order) →
    Except Unit (List Proposal)

/-- One element of the running `allocations` list inside `allocate_orders`
(the dicts emitted by `_parse_ai_allocations`). -/
structure StageAlloc where
  driver : Driver
  orders : List Order
  reasoning : String
deriving DecidableEq

/-- The orchestrator's mutable state: `driver_assignments`, the global
`allocated_order_ids` (a set, kept as a duplicate-free list), and the
accumulated per-stage `allocations`. -/
structure AllocState where
  assignMap : List (String × List Order)
  allocatedIds : List String
  allocs : List StageAlloc
deriving DecidableEq

/-- Python `set.add` on the allocated-ids set. -/
def addId (ids : List String) (oid : String) : List String :=
  if oid ∈ ids then ids else ids ++ [oid]

/-- `driver_assignments[did]` (the key is always present in the source since
the map is seeded with every driver; `getD []` only widens the domain). -/
def assignedOf (s : AllocState) (did : String) : List Order :=
  (alookup s.assignMap did).getD []

/-- The body of the per-order loop of `_parse_ai_allocations`: feasibility
check, then commit (append to the driver's running list, mark allocated). -/
def commitStep (config : Config) (omap : List (String × Order))
    (driver : Driver) (acc : AllocState × List Order) (oid : String) :
    AllocState × List Order :=
  match alookup omap oid with
  | none => acc
  | some order =>
    let s := acc.1
    let current := assignedOf s driver.driver_id
    let fr := validate_order_feasibility order driver current config
    if fr.1 then
      ({ s with
          assignMap := upsert s.assignMap driver.driver_id (current ++ [order]),
          allocatedIds := addId s.allocatedIds order.order_id },
        acc.2 ++ [order])
    else acc

/-- One iteration of the outer proposal loop of `_parse_ai_allocations`:
unknown or empty driver ids are silently dropped; a proposal only yields an
allocation entry when at least one of its orders is committed. -/
def parseProposalStep (config : Config) (omap : List (String × Order))
    (dmap : List (String × Driver)) (s : AllocState) (p : Proposal) :
    AllocState :=
  match p.driver_id with
  | none => s
  | some did =>
    if did = "" then s
    else
      match alookup dmap did with
      | none => s
      | some driver =>
        let res := p.order_ids.foldl (commitStep config omap driver) (s, [])
        if res.2.isEmpty then res.1
        else { res.1 with
                allocs := res.1.allocs ++ [⟨driver, res.2, p.reasoning⟩] }

/-- `ai_allocator._parse_ai_allocations` over an already-parsed proposal list. -/
def parse_ai_allocations (config : Config) (proposals : List Proposal)
    (orders : List Order) (drivers : List Driver) (s : AllocState) :
    AllocState :=
  let omap := buildMap Order.order_id orders
  let dmap := buildMap Driver.driver_id drivers
  proposals.foldl (parseProposalStep config omap dmap) s

/-- One stage of `allocate_orders`: its name, its category's orders, and its
driver pool. -/
structure StageSpec where
  name : String
  orders : List Order
  pool : List Driver

/-- The capacity filter at the top of `_allocate_priority_orders`. -/
def driversWithCapacity (s : AllocState) (pool : List Driver) : List Driver :=
  pool.filter (fun d =>
    (assignedOf s d.driver_id).length < d.max_orders_per_day.getD 0)

/-- One stage of the orchestrator: the `if <orders>:` guard in
`allocate_orders` plus `_allocate_priority_orders` (to which
`_allocate_batch_orders` also delegates).  A proposer failure degrades the
stage to zero allocations. -/
def runStage (config : Config) (proposer : Proposer) (s : AllocState)
    (stage : StageSpec) : AllocState :=
  if stage.orders.isEmpty then s
  else
    let dwc := driversWithCapacity s stage.pool
    if dwc.isEmpty then s
    else
      match proposer stage.name stage.orders dwc s.assignMap with
      | .error _ => s
      | .ok proposals => parse_ai_allocations config proposals stage.orders dwc s

/-- `dict.get(key, [])` on a categorized-orders dict. -/
def lookupD (m : List (String × List Order)) (k : String) : List Order :=
  (alookup m k).getD []

/-- The six stages of `allocate_orders`, in source order, with the exact
category keys and driver pools the source uses. -/
def stagePlan (categorized_orders : List (String × List Order))
    (cd : DriverCategories) (drivers : List Driver) : List StageSpec :=
  [⟨"VIP Wedding Orders", lookupD categorized_orders "vip_wedding",
      cd.wedding_capable⟩,
   ⟨"VIP Corporate Orders", lookupD categorized_orders "vip_corporate",
      cd.corporate_capable⟩,
   ⟨"VIP Orders", lookupD categorized_orders "vip", cd.wedding_capable⟩,
   ⟨"Wedding Orders", lookupD categorized_orders "wedding",
      cd.wedding_capable⟩,
   ⟨"Corporate Orders", lookupD categorized_orders "corporate",
      cd.corporate_capable ++ cd.general⟩,
   ⟨"Regular Orders", lookupD categorized_orders "regular", drivers⟩]

/-- A merged per-driver entry of `_merge_allocations`' `driver_map`. -/
structure MergedEntry where
  driver : Driver
  orders : List Order
  reasoning : String
deriving DecidableEq

/-- A final Assignment: driver, committed orders, reasoning, utilization. -/
structure FinalAlloc where
  driver : Driver
  orders : List Order
  reasoning : String
  utilization : ℚ
deriving DecidableEq

/-- One iteration of the merge loop: a new driver key is initialised with this
allocation's driver and reasoning, then (in both cases) the allocation's
orders are appended. -/
def mergeStep (m : List (String × MergedEntry)) (a : StageAlloc) :
    List (String × MergedEntry) :=
  let did := a.driver.driver_id
  match alookup m did with
  | none => upsert m did ⟨a.driver, a.orders, a.reasoning⟩
  | some e => upsert m did ⟨e.driver, e.orders ++ a.orders, e.reasoning⟩

/-- The utilization computation of `_merge_allocations`:
`len(orders) / driver.get("max_orders_per_day", 1) * 100`.  The default `1`
applies only when the field is absent; a present value of `0` makes the
source raise `ZeroDivisionError`, modelled as `none`. -/
def utilizationOf (e : MergedEntry) : Option ℚ :=
  let max_orders := e.driver.max_orders_per_day.getD 1
  if max_orders = 0 then none
  else some ((e.orders.length : ℚ) / (max_orders : ℚ) * 100)

/-- `ai_allocator._merge_allocations`: group by driver, compute utilization,
sort by descending utilization.  `none` models the `ZeroDivisionError` path. -/
def merge_allocations (allocations : List StageAlloc) :
    Option (List FinalAlloc) := do
  let dm := allocations.foldl mergeStep []
  let finals ← dm.mapM (fun p =>
    (utilizationOf p.2).map (fun u =>
      FinalAlloc.mk p.2.driver p.2.orders p.2.reasoning u))
  pure (List.insertionSort (fun x y => y.utilization ≤ x.utilization) finals)

/-- `ai_allocator._get_unallocation_reason`. -/
def get_unallocation_reason (order : Order) (drivers : List Driver)
    (assignMap : List (String × List Order)) : String :=
  let order_tags := order.tags
  let headroom := fun (d : Driver) =>
    ((alookup assignMap d.driver_id).getD []).length <
      d.max_orders_per_day.getD 0
  let generalReason :=
    let drivers_with_space := drivers.filter (fun d => decide (headroom d))
    if drivers_with_space.isEmpty then "All drivers at full capacity"
    else "Time conflicts or regional constraints prevented allocation"
  if "wedding" ∈ order_tags ∨ "vip" ∈ order_tags then
    let capable_drivers := drivers.filter (fun d =>
      decide ("wedding" ∈ d.capabilities ∨ "vip" ∈ d.capabilities))
    if capable_drivers.isEmpty then
      "No drivers with wedding/VIP capabilities available"
    else
      let available := capable_drivers.filter (fun d => decide (headroom d))
      if available.isEmpty then "All wedding-capable drivers at full capacity"
      else generalReason
  else generalReason

/-- The value returned by `allocate_orders`: merged allocations (`none` models
the division-error path of the merge), the allocated-id set, and the
unallocated orders with their annotated reasons. -/
structure AllocResult where
  allocations : Option (List FinalAlloc)
  allocated_order_ids : List String
  unallocated : List (Order × String)
deriving DecidableEq

/-- `ai_allocator.allocate_orders`: seed the per-driver map, run the six
stages in order, merge, and annotate the unallocated orders. -/
def allocate_orders (config : Config) (proposer : Proposer)
    (orders : List Order) (drivers : List Driver)
    (categorized_orders : List (String × List Order))
    (cd : DriverCategories) : AllocResult :=
  let init : AllocState :=
    ⟨drivers.foldl (fun m d => upsert m d.driver_id []) [], [], []⟩
  let finalState :=
    (stagePlan categorized_orders cd drivers).foldl
      (runStage config proposer) init
  let final_allocations := merge_allocations finalState.allocs
  let unallocated :=
    (orders.filter (fun o => decide (o.order_id ∉ finalState.allocatedIds))).map
      (fun o => (o, get_unallocation_reason o drivers finalState.assignMap))
  ⟨final_allocations, finalState.allocatedIds, unallocated⟩

/-- The per-category descending-priority sort done by
`preprocessor.preprocess` (stable sort on the priority key). -/
def sortByPriorityDesc (l : List Order) : List Order :=
  List.insertionSort (fun a b => get_order_priority b ≤ get_order_priority a) l

/-- `preprocessor.preprocess`, restricted to what the orchestrator consumes:
categorize, then sort each category by descending priority. -/
def preprocessOrders (orders : List Order) : List (String × List Order) :=
  (categorize_orders_by_priority orders).toDict.map
    (fun p => (p.1, sortByPriorityDesc p.2))

/-- The composed pipeline `DeliveryAllocator.allocate` feeds to
`allocate_orders`: preprocessed categories and categorized drivers. -/
def runPipeline (config : Config) (proposer : Proposer)
    (orders : List Order) (drivers : List Driver) : AllocResult :=
  allocate_orders config proposer orders drivers (preprocessOrders orders)
    (categorizeDrivers drivers)

/-- The three aggregate metrics of `DeliveryAllocator.allocate` under scrutiny
(`average_utilization` is only written when at least one assignment exists, so
it is `Option`-valued: `none` models the absent key). -/
structure Metrics where
  allocation_rate : ℚ
  average_utilization : Option ℚ
  regional_distribution : List (String × Nat)
deriving DecidableEq

/-- The regional-distribution loop of `DeliveryAllocator.allocate`:
`regional_dist[region] = regional_dist.get(region, 0) + 1` over every order of
every assignment, with `order.get("region", "unknown")`. -/
def regionBump (m : List (String × Nat)) (o : Order) : List (String × Nat) :=
  let region := o.region.getD "unknown"
  upsert m region ((alookup m region).getD 0 + 1)

def regionalDistribution (allocations : List FinalAlloc) :
    List (String × Nat) :=
  allocations.foldl (fun m a => a.orders.foldl regionBump m) []

/-- The metrics block of `DeliveryAllocator.allocate` (lines 84-103). -/
def computeMetrics (orders : List Order) (allocations : List FinalAlloc)
    (allocated_order_ids : List String) : Metrics :=
  { allocation_rate :=
      if orders.length > 0 then
        (allocated_order_ids.length : ℚ) / (orders.length : ℚ) * 100
      else 0,
    average_utilization :=
      if allocations.isEmpty then none
      else some ((allocations.map (fun a => a.utilization)).sum /
        (allocations.length : ℚ)),
    regional_distribution := regionalDistribution allocations }

/-- The hard-error variants collected by `AllocationValidator` (the source
formats these as strings; payloads carry the data those strings embed). -/
inductive ValError where
  | capacityExceeded (driver_id : String) (assigned maxCapacity : Nat)
  | missingCapability (driver_id order_id : String)
  | timeConflictPair (driver_id oid1 oid2 : String)
  | duplicateAssignment (order_id d1 d2 : String)
deriving DecidableEq

/-- `validator._find_time_conflicts_in_orders`: all ordered pairs i < j whose
windows overlap. -/
def find_time_conflicts_in_orders : List Order → List (Order × Order)
  | [] => []
  | o :: rest =>
    (rest.filter (fun o2 => check_time_conflict o o2)).map (fun o2 => (o, o2))
      ++ find_time_conflicts_in_orders rest

/-- `validator._validate_driver_allocation`: the errors one assignment
contributes (capacity, capability, pairwise overlap; regional mismatch is a
warning and cannot produce an error). -/
def validate_driver_allocation (a : FinalAlloc) : List ValError :=
  let driver := a.driver
  let orders := a.orders
  let max_orders := driver.max_orders_per_day.getD 0
  let capacityErrs :=
    if orders.length > max_orders then
      [ValError.capacityExceeded driver.driver_id orders.length max_orders]
    else []
  let capabilityErrs :=
    (orders.filter (fun o => !(has_required_capabilities driver o))).map
      (fun o => ValError.missingCapability driver.driver_id o.order_id)
  let conflictErrs :=
    if orders.length > 1 then
      (find_time_conflicts_in_orders orders).map (fun p =>
        ValError.timeConflictPair driver.driver_id p.1.order_id p.2.order_id)
    else []
  capacityErrs ++ capabilityErrs ++ conflictErrs

/-- The inner loop body of `validator._check_duplicate_assignments`: record
the first driver seen for an order id; report an error on a repeat. -/
def seenStep (did : String) (acc : List (String × String) × List ValError)
    (o : Order) : List (String × String) × List ValError :=
  match alookup acc.1 o.order_id with
  | some d1 =>
    (acc.1, acc.2 ++ [ValError.duplicateAssignment o.order_id d1 did])
  | none => (acc.1 ++ [(o.order_id, did)], acc.2)

/-- The body of `validator._check_duplicate_assignments` for one (seen-map,
errors) accumulator and one assignment. -/
def duplicateScanStep (acc : List (String × String) × List ValError)
    (a : FinalAlloc) : List (String × String) × List ValError :=
  a.orders.foldl (seenStep a.driver.driver_id) acc

/-- `validator._check_duplicate_assignments`. -/
def check_duplicate_assignments (allocations : List FinalAlloc) :
    List ValError :=
  (allocations.foldl duplicateScanStep ([], [])).2

/-- All hard errors `validate_allocation` collects. -/
def validationErrors (allocations : List FinalAlloc) : List ValError :=
  (allocations.map validate_driver_allocation).flatten ++
    check_duplicate_assignments allocations

/-- `validator.validate_allocation`: `True` iff no hard error was collected
(warnings never flip the result). -/
def validate_allocation (allocations : List FinalAlloc) : Bool :=
  (validationErrors allocations).isEmpty

/-! Concrete fixtures used by the spec's scenarios, by counterexamples, and by
witnesses.  Times are minutes from midnight (e.g. 600 = 10:00). -/

/-- The default configuration's 15-minute minimum buffer. -/
def cfg15 : Config := ⟨15⟩

/-- Spec scenario: order A, teardown at 10:00. -/
def orderA : Order := ⟨"A", 540, 570, 600, some "north", []⟩

/-- Spec scenario: wedding order C, pickup at 10:10. -/
def orderC : Order := ⟨"C", 610, 640, 700, some "north", ["wedding"]⟩

/-- Spec scenario: wedding-capable driver D of capacity 2. -/
def driverD : Driver := ⟨"D", some "north", ["wedding"], some 2⟩

/-- An untagged order (falls into the `regular` category). -/
def exOrder1 : Order := ⟨"O1", 0, 30, 60, some "north", []⟩

/-- A second untagged order, disjoint in time from `exOrder1`. -/
def exOrder2 : Order := ⟨"O2", 120, 150, 180, some "south", []⟩

/-- Capacity-1 driver with no capabilities. -/
def exDriver1 : Driver := ⟨"D1", some "north", [], some 1⟩

/-- Second capacity-1 driver with no capabilities. -/
def exDriver2 : Driver := ⟨"D2", some "north", [], some 1⟩

/-- A proposer that proposes the same order to two different drivers within
the regular stage. -/
def proposerDup : Proposer := fun stage_name _ _ _ =>
  if stage_name = "Regular Orders" then
    .ok [⟨some "D1", ["O1"], "r1"⟩, ⟨some "D2", ["O1"], "r2"⟩]
  else .ok []

/-- A proposer that always fails (raises / returns malformed output). -/
def proposerFail : Proposer := fun _ _ _ _ => .error ()

/-- Capacity-4 driver, used by the merge examples. -/
def exDriver4 : Driver := ⟨"D4", some "north", [], some 4⟩

/-- First per-stage partial allocation for `exDriver4`. -/
def exAllocR1 : StageAlloc := ⟨exDriver4, [exOrder1], "first reason"⟩

/-- Second per-stage partial allocation for `exDriver4`, with a different
non-empty reasoning string. -/
def exAllocR2 : StageAlloc := ⟨exDriver4, [exOrder2], "second reason"⟩

/-- A driver whose `max_orders_per_day` field is present and equals 0. -/
def exDriver0 : Driver := ⟨"D0", some "north", [], some 0⟩

/-- A partial allocation whose driver has `max_orders_per_day = 0`. -/
def exAllocZero : StageAlloc := ⟨exDriver0, [exOrder1], "r"⟩

/-- Order ending at 60; `exOrderB2` starts 10 minutes later: no overlap, but
the 15-minute buffer is violated. -/
def exOrderB1 : Order := ⟨"B1", 0, 30, 60, some "north", []⟩

/-- Order starting at 70 (10-minute gap after `exOrderB1`). -/
def exOrderB2 : Order := ⟨"B2", 70, 100, 130, some "north", []⟩

/-- Capacity-2 driver with no capability requirements to meet. -/
def exDriverE : Driver := ⟨"E", some "north", [], some 2⟩

/-- A final allocation that is capacity-, capability- and overlap-clean but
violates the minimum buffer between its two orders. -/
def exFinalBuf : FinalAlloc := ⟨exDriverE, [exOrderB1, exOrderB2], "r", 100⟩

/-- The per-stage allocations a given driver received, in commit order
(specification-side view used to state the merge claims). -/
def allocsFor (did : String) (allocs : List StageAlloc) : List StageAlloc :=
  allocs.filter (fun a => a.driver.driver_id == did)

/-- The concatenation, in commit order, of the order lists a driver received
across stages (specification-side view used to state the merge claims). -/
def joinedOrdersFor (did : String) (allocs : List StageAlloc) : List Order :=
  ((allocsFor did allocs).map StageAlloc.orders).flatten

/-! ### Helper lemmas -/

theorem check_time_conflict_eq_false_iff (a b : Order) :
    check_time_conflict a b = false ↔
      (a.teardown_time ≤ b.pickup_time ∨ b.teardown_time ≤ a.pickup_time) := by
  unfold check_time_conflict
  split_ifs with h <;> simp [h]

theorem has_required_capabilities_iff (driver : Driver) (order : Order) :
    has_required_capabilities driver order = true ↔
      (("wedding" ∈ order.tags → "wedding" ∈ driver.capabilities) ∧
       ("vip" ∈ order.tags → "vip" ∈ driver.capabilities) ∧
       ("corporate" ∈ order.tags → "corporate" ∈ driver.capabilities)) := by
  unfold has_required_capabilities
  dsimp only
  split_ifs <;> simp_all

theorem categorize_foldl_eq (orders : List Order) (c0 : OrderCategories) :
    orders.foldl categorizeStep c0 =
      ⟨c0.vip_wedding ++ orders.filter
          (fun o => decide ("vip" ∈ o.tags ∧ "wedding" ∈ o.tags)),
        c0.vip ++ orders.filter
          (fun o => decide ("vip" ∈ o.tags ∧ "wedding" ∉ o.tags)),
        c0.wedding ++ orders.filter
          (fun o => decide ("wedding" ∈ o.tags ∧ "vip" ∉ o.tags)),
        c0.corporate ++ orders.filter
          (fun o => decide ("corporate" ∈ o.tags ∧ "vip" ∉ o.tags ∧
            "wedding" ∉ o.tags)),
        c0.regular ++ orders.filter
          (fun o => decide ("vip" ∉ o.tags ∧ "wedding" ∉ o.tags ∧
            "corporate" ∉ o.tags))⟩ := by
  induction orders generalizing c0 with
  | nil => simp
  | cons o rest ih =>
    simp only [List.foldl_cons, ih, List.filter_cons]
    unfold categorizeStep
    by_cases h1 : "vip" ∈ o.tags ∧ "wedding" ∈ o.tags
    · obtain ⟨hv, hw⟩ := h1
      simp [hv, hw]
    · by_cases hv : "vip" ∈ o.tags
      · have hw : "wedding" ∉ o.tags := fun hw => h1 ⟨hv, hw⟩
        simp [hv, hw]
      · by_cases hw : "wedding" ∈ o.tags
        · simp [hv, hw, h1]
        · by_cases hc : "corporate" ∈ o.tags
          · simp [hv, hw, hc, h1]
          · simp [hv, hw, hc, h1]

theorem categorize_eq_filters (orders : List Order) :
    categorize_orders_by_priority orders =
      ⟨orders.filter (fun o => decide ("vip" ∈ o.tags ∧ "wedding" ∈ o.tags)),
        orders.filter (fun o => decide ("vip" ∈ o.tags ∧ "wedding" ∉ o.tags)),
        orders.filter (fun o => decide ("wedding" ∈ o.tags ∧ "vip" ∉ o.tags)),
        orders.filter (fun o => decide ("corporate" ∈ o.tags ∧
          "vip" ∉ o.tags ∧ "wedding" ∉ o.tags)),
        orders.filter (fun o => decide ("vip" ∉ o.tags ∧ "wedding" ∉ o.tags ∧
          "corporate" ∉ o.tags))⟩ := by
  unfold categorize_orders_by_priority
  rw [categorize_foldl_eq]
  rfl

theorem alookup_nil {α : Type} (k : String) :
    alookup ([] : List (String × α)) k = none := rfl

theorem alookup_cons {α : Type} (k0 : String) (v0 : α)
    (rest : List (String × α)) (k : String) :
    alookup ((k0, v0) :: rest) k =
      if k0 = k then some v0 else alookup rest k := by
  unfold alookup
  by_cases h : k0 = k
  · rw [List.find?_cons_of_pos _ (by simpa using h), if_pos h]
    rfl
  · rw [List.find?_cons_of_neg _ (by simpa using h), if_neg h]

theorem upsert_cons {α : Type} (k0 : String) (v0 : α)
    (rest : List (String × α)) (k : String) (v : α) :
    upsert ((k0, v0) :: rest) k v =
      if k0 = k then (k, v) :: rest else (k0, v0) :: upsert rest k v := rfl

theorem alookup_upsert_self {α : Type} (m : List (String × α)) (k : String)
    (v : α) : alookup (upsert m k v) k = some v := by
  induction m with
  | nil => simp [upsert, alookup_cons]
  | cons p rest ih =>
    obtain ⟨k0, v0⟩ := p
    rw [upsert_cons]
    by_cases h : k0 = k
    · rw [if_pos h, alookup_cons, if_pos rfl]
    · rw [if_neg h, alookup_cons, if_neg h]
      exact ih

theorem alookup_upsert_ne {α : Type} (m : List (String × α)) (k k2 : String)
    (v : α) (h : k2 ≠ k) : alookup (upsert m k v) k2 = alookup m k2 := by
  induction m with
  | nil =>
    rw [show upsert ([] : List (String × α)) k v = [(k, v)] from rfl,
      alookup_cons, if_neg (fun he => h he.symm)]
  | cons p rest ih =>
    obtain ⟨k0, v0⟩ := p
    rw [upsert_cons]
    by_cases h0 : k0 = k
    · rw [if_pos h0, alookup_cons, alookup_cons, if_neg (fun he => h he.symm),
        if_neg (h0 ▸ fun he => h he.symm)]
    · rw [if_neg h0, alookup_cons, alookup_cons]
      by_cases h2 : k0 = k2
      · rw [if_pos h2, if_pos h2]
      · rw [if_neg h2, if_neg h2]
        exact ih

theorem mem_keys_upsert {α : Type} (m : List (String × α)) (k k2 : String)
    (v : α) : k2 ∈ (upsert m k v).map Prod.fst ↔
      k2 ∈ m.map Prod.fst ∨ k2 = k := by
  induction m with
  | nil => simp [upsert]
  | cons p rest ih =>
    obtain ⟨k0, v0⟩ := p
    rw [upsert_cons]
    by_cases h : k0 = k
    · subst h
      by_cases h2 : k2 = k0 <;> simp [h2]
    · simp only [if_neg h, List.map_cons, List.mem_cons, ih]
      tauto

theorem nodup_keys_upsert {α : Type} (m : List (String × α)) (k : String)
    (v : α) (h : (m.map Prod.fst).Nodup) :
    ((upsert m k v).map Prod.fst).Nodup := by
  induction m with
  | nil => simp [upsert]
  | cons p rest ih =>
    obtain ⟨k0, v0⟩ := p
    simp only [List.map_cons, List.nodup_cons] at h
    rw [upsert_cons]
    by_cases h0 : k0 = k
    · subst h0
      rw [if_pos rfl]
      simpa using h
    · rw [if_neg h0]
      simp only [List.map_cons, List.nodup_cons]
      refine ⟨?_, ih h.2⟩
      intro hk0
      rcases (mem_keys_upsert rest k k0 v).mp hk0 with hin | he
      · exact h.1 hin
      · exact h0 he

theorem mem_upsert_elim {α : Type} (m : List (String × α)) (k : String)
    (v : α) (p : String × α) (h : p ∈ upsert m k v) :
    p ∈ m ∨ p = (k, v) := by
  induction m with
  | nil => simpa [upsert] using h
  | cons q rest ih =>
    obtain ⟨k0, v0⟩ := q
    rw [upsert_cons] at h
    by_cases h0 : k0 = k
    · rw [if_pos h0] at h
      rcases List.mem_cons.mp h with h | h
      · right; exact h
      · left; exact List.mem_cons_of_mem _ h
    · rw [if_neg h0] at h
      rcases List.mem_cons.mp h with h | h
      · left; simp [h]
      · rcases ih h with h2 | h2
        · left; exact List.mem_cons_of_mem _ h2
        · right; exact h2

theorem alookup_some_mem {α : Type} (m : List (String × α)) (k : String)
    (v : α) (h : alookup m k = some v) : (k, v) ∈ m := by
  unfold alookup at h
  cases hf : m.find? (fun p => p.1 == k) with
  | none => rw [hf] at h; simp at h
  | some p =>
    rw [hf] at h
    simp only [Option.map_some'] at h
    have hm := List.mem_of_find?_eq_some hf
    have hp := List.find?_some hf
    obtain ⟨k0, v0⟩ := p
    simp only at h
    have : k0 = k := by simpa using hp
    subst this
    obtain rfl : v0 = v := by simpa using h
    exact hm

theorem alookup_none_not_mem_keys {α : Type} (m : List (String × α))
    (k : String) : alookup m k = none ↔ k ∉ m.map Prod.fst := by
  unfold alookup
  rw [Option.map_eq_none', List.find?_eq_none]
  constructor
  · intro h hk
    obtain ⟨p, hp, he⟩ := List.mem_map.mp hk
    exact absurd (by simp [he]) (h p hp)
  · intro h p hp
    simp only [beq_iff_eq]
    intro he
    exact h (List.mem_map.mpr ⟨p, hp, he⟩)

theorem countP_keys_nodup {α : Type} (m : List (String × α)) (k : String)
    (h : (m.map Prod.fst).Nodup) :
    m.countP (fun p => p.1 == k) = if k ∈ m.map Prod.fst then 1 else 0 := by
  induction m with
  | nil => simp
  | cons p rest ih =>
    obtain ⟨k0, v0⟩ := p
    simp only [List.map_cons, List.nodup_cons] at h
    rw [List.countP_cons]
    by_cases h0 : k0 = k
    · subst h0
      have : k0 ∉ rest.map Prod.fst := by simpa using h.1
      rw [ih h.2, if_neg this]
      simp
    · rw [ih h.2]
      by_cases hk : k ∈ rest.map Prod.fst <;>
        simp [hk, h0, Ne.symm h0]

/-- `mapM` over `Option` succeeds pointwise. -/
theorem mapM_option_some {α β : Type} (f : α → Option β) (g : α → β)
    (l : List α) (h : ∀ x ∈ l, f x = some (g x)) :
    l.mapM f = some (l.map g) := by
  induction l with
  | nil => rfl
  | cons x rest ih =>
    rw [List.mapM_cons, h x (by simp), ih (fun y hy => h y (by simp [hy]))]
    rfl

theorem alookup_of_mem_nodup {α : Type} (m : List (String × α)) (k : String)
    (v : α) (hnd : (m.map Prod.fst).Nodup) (h : (k, v) ∈ m) :
    alookup m k = some v := by
  induction m with
  | nil => simp at h
  | cons p rest ih =>
    obtain ⟨k0, v0⟩ := p
    simp only [List.map_cons, List.nodup_cons] at hnd
    rw [alookup_cons]
    rcases List.mem_cons.mp h with he | hm
    · simp only [Prod.mk.injEq] at he
      obtain ⟨rfl, rfl⟩ := he
      rw [if_pos rfl]
    · have hne : k0 ≠ k := by
        rintro rfl
        exact hnd.1 (List.mem_map.mpr ⟨(k0, v), hm, rfl⟩)
      rw [if_neg hne]
      exact ih hnd.2 hm

theorem allocsFor_cons (did : String) (a : StageAlloc)
    (rest : List StageAlloc) :
    allocsFor did (a :: rest) =
      if a.driver.driver_id = did then a :: allocsFor did rest
      else allocsFor did rest := by
  unfold allocsFor
  by_cases h : a.driver.driver_id = did
  · rw [List.filter_cons_of_pos (by simpa using h), if_pos h]
  · rw [List.filter_cons_of_neg (by simpa using h), if_neg h]

theorem joinedOrdersFor_nil (did : String) : joinedOrdersFor did [] = [] := rfl

theorem joinedOrdersFor_cons (did : String) (a : StageAlloc)
    (rest : List StageAlloc) :
    joinedOrdersFor did (a :: rest) =
      if a.driver.driver_id = did then a.orders ++ joinedOrdersFor did rest
      else joinedOrdersFor did rest := by
  unfold joinedOrdersFor
  rw [allocsFor_cons]
  by_cases h : a.driver.driver_id = did <;> simp [h]

theorem mergeFold_alookup (allocs : List StageAlloc)
    (m0 : List (String × MergedEntry)) (did : String) :
    alookup (allocs.foldl mergeStep m0) did =
      match alookup m0 did with
      | some e =>
        some ⟨e.driver, e.orders ++ joinedOrdersFor did allocs, e.reasoning⟩
      | none =>
        match allocs.find? (fun a => a.driver.driver_id == did) with
        | none => none
        | some a0 => some ⟨a0.driver, joinedOrdersFor did allocs,
            a0.reasoning⟩ := by
  induction allocs generalizing m0 with
  | nil =>
    cases he : alookup m0 did with
    | none => rw [List.foldl_nil, he]; rfl
    | some e =>
      obtain ⟨d, os, r⟩ := e
      rw [List.foldl_nil, he]
      simp [joinedOrdersFor_nil]
  | cons a rest ih =>
    rw [List.foldl_cons, ih]
    by_cases hd : a.driver.driver_id = did
    · subst hd
      cases he : alookup m0 a.driver.driver_id with
      | none =>
        have h1 : mergeStep m0 a =
            upsert m0 a.driver.driver_id ⟨a.driver, a.orders, a.reasoning⟩ := by
          unfold mergeStep
          dsimp only
          rw [he]
        rw [h1, alookup_upsert_self]
        rw [List.find?_cons_of_pos _ (by simp), joinedOrdersFor_cons,
          if_pos rfl]
      | some e =>
        have h1 : mergeStep m0 a = upsert m0 a.driver.driver_id
            ⟨e.driver, e.orders ++ a.orders, e.reasoning⟩ := by
          unfold mergeStep
          dsimp only
          rw [he]
        rw [h1, alookup_upsert_self]
        rw [joinedOrdersFor_cons, if_pos rfl]
        simp [List.append_assoc]
    · have h1 : alookup (mergeStep m0 a) did = alookup m0 did := by
        unfold mergeStep
        dsimp only
        cases he : alookup m0 a.driver.driver_id with
        | none => exact alookup_upsert_ne _ _ _ _ (fun h => hd h.symm)
        | some e => exact alookup_upsert_ne _ _ _ _ (fun h => hd h.symm)
      rw [h1, joinedOrdersFor_cons, if_neg hd,
        List.find?_cons_of_neg _ (by simpa using hd)]

theorem mergeFold_mem_keys (allocs : List StageAlloc)
    (m0 : List (String × MergedEntry)) (k : String) :
    k ∈ (allocs.foldl mergeStep m0).map Prod.fst ↔
      k ∈ m0.map Prod.fst ∨
        k ∈ allocs.map (fun a => a.driver.driver_id) := by
  induction allocs generalizing m0 with
  | nil => simp
  | cons a rest ih =>
    rw [List.foldl_cons, ih]
    have hup : ∀ v : MergedEntry,
        (k ∈ (upsert m0 a.driver.driver_id v).map Prod.fst ↔
          k ∈ m0.map Prod.fst ∨ k = a.driver.driver_id) :=
      fun v => mem_keys_upsert m0 a.driver.driver_id k v
    have h1 : k ∈ (mergeStep m0 a).map Prod.fst ↔
        k ∈ m0.map Prod.fst ∨ k = a.driver.driver_id := by
      unfold mergeStep
      dsimp only
      cases he : alookup m0 a.driver.driver_id with
      | none => exact hup _
      | some e => exact hup _
    rw [h1]
    simp only [List.map_cons, List.mem_cons]
    tauto

theorem mergeFold_nodup_keys (allocs : List StageAlloc)
    (m0 : List (String × MergedEntry))
    (h : (m0.map Prod.fst).Nodup) :
    ((allocs.foldl mergeStep m0).map Prod.fst).Nodup := by
  induction allocs generalizing m0 with
  | nil => exact h
  | cons a rest ih =>
    rw [List.foldl_cons]
    refine ih _ ?_
    unfold mergeStep
    dsimp only
    cases he : alookup m0 a.driver.driver_id with
    | none => exact nodup_keys_upsert _ _ _ h
    | some e => exact nodup_keys_upsert _ _ _ h

theorem mergeFold_entry_key (allocs : List StageAlloc)
    (m0 : List (String × MergedEntry))
    (h : ∀ p ∈ m0, (p.2 : MergedEntry).driver.driver_id = p.1) :
    ∀ p ∈ allocs.foldl mergeStep m0,
      (p.2 : MergedEntry).driver.driver_id = p.1 := by
  induction allocs generalizing m0 with
  | nil => exact h
  | cons a rest ih =>
    rw [List.foldl_cons]
    refine ih _ ?_
    intro p hp
    have step : p ∈ upsert m0 a.driver.driver_id ⟨a.driver, a.orders,
          a.reasoning⟩ ∨
        ∃ e : MergedEntry, alookup m0 a.driver.driver_id = some e ∧
          p ∈ upsert m0 a.driver.driver_id
            ⟨e.driver, e.orders ++ a.orders, e.reasoning⟩ := by
      unfold mergeStep at hp
      dsimp only at hp
      cases he : alookup m0 a.driver.driver_id with
      | none => rw [he] at hp; exact Or.inl hp
      | some e => rw [he] at hp; exact Or.inr ⟨e, rfl, hp⟩
    rcases step with hp2 | ⟨e, he, hp2⟩
    · rcases mem_upsert_elim _ _ _ _ hp2 with hin | rfl
      · exact h p hin
      · rfl
    · rcases mem_upsert_elim _ _ _ _ hp2 with hin | rfl
      · exact h p hin
      · exact h (a.driver.driver_id, e) (alookup_some_mem _ _ _ he)

theorem mergeFold_driver_from (allocs : List StageAlloc)
    (m0 : List (String × MergedEntry)) :
    ∀ p ∈ allocs.foldl mergeStep m0,
      (∃ q ∈ m0, (p.2 : MergedEntry).driver = (q.2 : MergedEntry).driver) ∨
        ∃ a ∈ allocs, (p.2 : MergedEntry).driver = a.driver := by
  induction allocs generalizing m0 with
  | nil =>
    intro p hp
    exact Or.inl ⟨p, hp, rfl⟩
  | cons a rest ih =>
    intro p hp
    rw [List.foldl_cons] at hp
    rcases ih (mergeStep m0 a) p hp with ⟨q, hq, he⟩ | ⟨a2, ha2, he⟩
    · have step : q ∈ upsert m0 a.driver.driver_id ⟨a.driver, a.orders,
            a.reasoning⟩ ∨
          ∃ e : MergedEntry, alookup m0 a.driver.driver_id = some e ∧
            q ∈ upsert m0 a.driver.driver_id
              ⟨e.driver, e.orders ++ a.orders, e.reasoning⟩ := by
        unfold mergeStep at hq
        dsimp only at hq
        cases hl : alookup m0 a.driver.driver_id with
        | none => rw [hl] at hq; exact Or.inl hq
        | some e => rw [hl] at hq; exact Or.inr ⟨e, rfl, hq⟩
      rcases step with hq2 | ⟨e, hl, hq2⟩
      · rcases mem_upsert_elim _ _ _ _ hq2 with hin | rfl
        · exact Or.inl ⟨q, hin, he⟩
        · exact Or.inr ⟨a, by simp, he⟩
      · rcases mem_upsert_elim _ _ _ _ hq2 with hin | rfl
        · exact Or.inl ⟨q, hin, he⟩
        · exact Or.inl ⟨(a.driver.driver_id, e), alookup_some_mem _ _ _ hl,
            he⟩
    · exact Or.inr ⟨a2, by simp [ha2], he⟩

/-- Full characterization of `_merge_allocations` on inputs whose drivers do
not trigger the division error. -/
theorem merge_allocations_spec (allocs : List StageAlloc)
    (hdiv : ∀ a ∈ allocs, a.driver.max_orders_per_day.getD 1 ≠ 0) :
    ∃ merged, merge_allocations allocs = some merged ∧
      (∀ did : String,
        merged.countP (fun f => f.driver.driver_id == did) =
          if did ∈ allocs.map (fun a => a.driver.driver_id) then 1 else 0) ∧
      (∀ f ∈ merged, ∃ a0,
        allocs.find? (fun a => a.driver.driver_id == f.driver.driver_id) =
            some a0 ∧
          a0 ∈ allocs ∧ f.driver = a0.driver ∧ f.reasoning = a0.reasoning ∧
          f.orders = joinedOrdersFor f.driver.driver_id allocs ∧
          f.utilization = (f.orders.length : ℚ) /
            ((f.driver.max_orders_per_day.getD 1 : Nat) : ℚ) * 100) := by
  classical
  set dm := allocs.foldl mergeStep [] with hdm
  set g : (String × MergedEntry) → FinalAlloc := fun p =>
    ⟨p.2.driver, p.2.orders, p.2.reasoning, (p.2.orders.length : ℚ) /
      ((p.2.driver.max_orders_per_day.getD 1 : Nat) : ℚ) * 100⟩ with hg
  have hnd : (dm.map Prod.fst).Nodup :=
    mergeFold_nodup_keys allocs [] (by simp)
  have hkey : ∀ p ∈ dm, (p.2 : MergedEntry).driver.driver_id = p.1 :=
    mergeFold_entry_key allocs [] (by simp)
  have hdrv : ∀ p ∈ dm, ∃ a ∈ allocs, (p.2 : MergedEntry).driver = a.driver := by
    intro p hp
    rcases mergeFold_driver_from allocs [] p hp with ⟨q, hq, _⟩ | h
    · simp at hq
    · exact h
  have hutil : ∀ p ∈ dm, utilizationOf p.2 =
      some ((p.2.orders.length : ℚ) /
        ((p.2.driver.max_orders_per_day.getD 1 : Nat) : ℚ) * 100) := by
    intro p hp
    obtain ⟨a, ha, he⟩ := hdrv p hp
    unfold utilizationOf
    dsimp only
    rw [if_neg (by rw [he]; exact hdiv a ha)]
  have hmapm : dm.mapM (fun p => (utilizationOf p.2).map (fun u =>
      FinalAlloc.mk p.2.driver p.2.orders p.2.reasoning u)) =
      some (dm.map g) := by
    refine mapM_option_some _ g dm ?_
    intro p hp
    rw [hutil p hp]
    rfl
  have hmerge : merge_allocations allocs =
      some (List.insertionSort (fun x y => y.utilization ≤ x.utilization)
        (dm.map g)) := by
    unfold merge_allocations
    dsimp only
    rw [← hdm, hmapm]
    rfl
  refine ⟨_, hmerge, ?_, ?_⟩
  · intro did
    have hperm : List.Perm (List.insertionSort
        (fun x y => y.utilization ≤ x.utilization) (dm.map g)) (dm.map g) :=
      List.perm_insertionSort _ _
    rw [hperm.countP_eq, List.countP_map]
    have hpt : dm.countP
        ((fun f : FinalAlloc => f.driver.driver_id == did) ∘ g) =
        dm.countP (fun p => p.1 == did) := by
      refine List.countP_congr ?_
      intro p hp
      simp only [Function.comp, hg]
      rw [hkey p hp]
    rw [hpt, countP_keys_nodup dm did hnd]
    have hiff : did ∈ dm.map Prod.fst ↔
        did ∈ allocs.map (fun a => a.driver.driver_id) := by
      rw [hdm, mergeFold_mem_keys]
      simp
    by_cases hin : did ∈ allocs.map (fun a => a.driver.driver_id)
    · rw [if_pos (hiff.mpr hin), if_pos hin]
    · rw [if_neg (fun h => hin (hiff.mp h)), if_neg hin]
  · intro f hf
    have hperm : List.Perm (List.insertionSort
        (fun x y => y.utilization ≤ x.utilization) (dm.map g)) (dm.map g) :=
      List.perm_insertionSort _ _
    have hf2 : f ∈ dm.map g := hperm.mem_iff.mp hf
    obtain ⟨p, hp, rfl⟩ := List.mem_map.mp hf2
    have hal : alookup dm p.1 = some p.2 :=
      alookup_of_mem_nodup dm p.1 p.2 hnd (by simpa using hp)
    have hkeyp := hkey p hp
    have hspec : alookup dm p.1 =
        match allocs.find? (fun a => a.driver.driver_id == p.1) with
        | none => none
        | some a0 => some ⟨a0.driver, joinedOrdersFor p.1 allocs,
            a0.reasoning⟩ := by
      rw [hdm, mergeFold_alookup allocs [] p.1, alookup_nil]
    rw [hal] at hspec
    cases hfind : allocs.find?
        (fun a => a.driver.driver_id == p.1) with
    | none =>
      rw [hfind] at hspec
      simp at hspec
    | some a0 =>
      rw [hfind] at hspec
      have hent : p.2 = (⟨a0.driver, joinedOrdersFor p.1 allocs,
          a0.reasoning⟩ : MergedEntry) := by
        simpa using hspec
      refine ⟨a0, ?_, List.mem_of_find?_eq_some hfind, ?_, ?_, ?_, ?_⟩
      · simp only [hg]
        rw [hkeyp]
        exact hfind
      · simp only [hg]
        rw [hent]
      · simp only [hg]
        rw [hent]
      · simp only [hg]
        rw [hkeyp, hent]
      · simp only [hg]

/-! ### Claim theorems -/

/-- C3: for well-formed orders (pickup no later than teardown, as the data
model guarantees via `pickup_time < setup_time < teardown_time`),
`has_sufficient_buffer` returns true iff the orders are non-overlapping and
the gap between the earlier teardown and the later pickup reaches the minimum
buffer; it is false on overlap and symmetric in its two order arguments; and
in the spec scenario (assigned teardown 10:00, candidate pickup 10:10,
15-minute buffer) feasibility fails with an insufficient-buffer reason naming
the assigned order. -/
theorem buffer_nonoverlap_gap_and_symm (a b : Order) (config : Config)
    (ha : a.pickup_time ≤ a.teardown_time)
    (hb : b.pickup_time ≤ b.teardown_time) :
    (has_sufficient_buffer a b config = true ↔
      (check_time_conflict a b = false ∧
        ((a.teardown_time ≤ b.pickup_time ∧
            config.min_buffer_time_minutes ≤
              b.pickup_time - a.teardown_time) ∨
          (b.teardown_time ≤ a.pickup_time ∧
            config.min_buffer_time_minutes ≤
              a.pickup_time - b.teardown_time)))) ∧
    has_sufficient_buffer a b config = has_sufficient_buffer b a config ∧
    validate_order_feasibility orderC driverD [orderA] cfg15 =
      (false, .insufficientBuffer "A") := by
  refine ⟨?_, ?_, by decide⟩
  · rw [check_time_conflict_eq_false_iff]
    unfold has_sufficient_buffer
    dsimp only
    split_ifs with h1 h2 <;> simp <;> omega
  · unfold has_sufficient_buffer
    dsimp only
    split_ifs with h1 h2 h3 <;> try rfl
    all_goals exact decide_eq_decide.mpr (by omega)

/-- Witness for C3 at the spec-scenario orders. -/
theorem buffer_nonoverlap_gap_and_symm_witness :
    has_sufficient_buffer orderA orderC cfg15 =
      has_sufficient_buffer orderC orderA cfg15 :=
  (buffer_nonoverlap_gap_and_symm orderA orderC cfg15 (by decide)
    (by decide)).2.1

/-- C2: `validate_order_feasibility` checks capacity, then capability (wedding
tag needs wedding capability, vip needs vip, corporate needs corporate), then
interval overlap against each assigned order, then buffer against each
assigned order, short-circuiting so the reported reason is the first violated
rule; it returns true iff all four rules pass. -/
theorem feasibility_rule_order (order : Order) (driver : Driver)
    (assigned_orders : List Order) (config : Config) :
    ((validate_order_feasibility order driver assigned_orders config).1 =
        true ↔
      (assigned_orders.length < driver.max_orders_per_day.getD 0 ∧
        has_required_capabilities driver order = true ∧
        (∀ a ∈ assigned_orders, check_time_conflict order a = false) ∧
        (∀ a ∈ assigned_orders,
          has_sufficient_buffer order a config = true))) ∧
    (has_required_capabilities driver order = true ↔
      (("wedding" ∈ order.tags → "wedding" ∈ driver.capabilities) ∧
        ("vip" ∈ order.tags → "vip" ∈ driver.capabilities) ∧
        ("corporate" ∈ order.tags → "corporate" ∈ driver.capabilities))) ∧
    (¬ assigned_orders.length < driver.max_orders_per_day.getD 0 →
      validate_order_feasibility order driver assigned_orders config =
        (false, .atCapacity assigned_orders.length
          (driver.max_orders_per_day.getD 0))) ∧
    (assigned_orders.length < driver.max_orders_per_day.getD 0 →
      has_required_capabilities driver order = false →
      validate_order_feasibility order driver assigned_orders config =
        (false, .missingCapabilities order.tags driver.capabilities)) ∧
    (assigned_orders.length < driver.max_orders_per_day.getD 0 →
      has_required_capabilities driver order = true →
      (∃ a ∈ assigned_orders, check_time_conflict order a = true) →
      ∃ oid, validate_order_feasibility order driver assigned_orders config =
        (false, .timeConflict oid)) ∧
    (assigned_orders.length < driver.max_orders_per_day.getD 0 →
      has_required_capabilities driver order = true →
      (∀ a ∈ assigned_orders, check_time_conflict order a = false) →
      (∃ a ∈ assigned_orders, has_sufficient_buffer order a config = false) →
      ∃ oid, validate_order_feasibility order driver assigned_orders config =
        (false, .insufficientBuffer oid)) := by
  have e1 : ¬ assigned_orders.length < driver.max_orders_per_day.getD 0 →
      validate_order_feasibility order driver assigned_orders config =
        (false, .atCapacity assigned_orders.length
          (driver.max_orders_per_day.getD 0)) := by
    intro h
    unfold validate_order_feasibility
    dsimp only
    rw [if_pos (by omega)]
  have e2 : assigned_orders.length < driver.max_orders_per_day.getD 0 →
      has_required_capabilities driver order = false →
      validate_order_feasibility order driver assigned_orders config =
        (false, .missingCapabilities order.tags driver.capabilities) := by
    intro h h2
    unfold validate_order_feasibility
    dsimp only
    rw [if_neg (by omega), if_pos (by simp [h2])]
  have e3 : ∀ a0, assigned_orders.length < driver.max_orders_per_day.getD 0 →
      has_required_capabilities driver order = true →
      assigned_orders.find? (fun a => check_time_conflict order a) = some a0 →
      validate_order_feasibility order driver assigned_orders config =
        (false, .timeConflict a0.order_id) := by
    intro a0 h h2 hf
    unfold validate_order_feasibility
    dsimp only
    rw [if_neg (by omega), if_neg (by simp [h2]), hf]
  have e4 : ∀ a0, assigned_orders.length < driver.max_orders_per_day.getD 0 →
      has_required_capabilities driver order = true →
      assigned_orders.find? (fun a => check_time_conflict order a) = none →
      assigned_orders.find?
        (fun a => !(has_sufficient_buffer order a config)) = some a0 →
      validate_order_feasibility order driver assigned_orders config =
        (false, .insufficientBuffer a0.order_id) := by
    intro a0 h h2 hf hg
    unfold validate_order_feasibility
    dsimp only
    rw [if_neg (by omega), if_neg (by simp [h2]), hf, hg]
  have e5 : assigned_orders.length < driver.max_orders_per_day.getD 0 →
      has_required_capabilities driver order = true →
      assigned_orders.find? (fun a => check_time_conflict order a) = none →
      assigned_orders.find?
        (fun a => !(has_sufficient_buffer order a config)) = none →
      validate_order_feasibility order driver assigned_orders config =
        (true, .feasible) := by
    intro h h2 hf hg
    unfold validate_order_feasibility
    dsimp only
    rw [if_neg (by omega), if_neg (by simp [h2]), hf, hg]
  refine ⟨?_, has_required_capabilities_iff driver order, fun h => e1 h,
    fun h h2 => e2 h h2, ?_, ?_⟩
  · constructor
    · intro htrue
      by_cases h1 : assigned_orders.length < driver.max_orders_per_day.getD 0
      · cases h2 : has_required_capabilities driver order with
        | false => rw [e2 h1 h2] at htrue; exact absurd htrue (by simp)
        | true =>
          cases hf : assigned_orders.find?
              (fun a => check_time_conflict order a) with
          | some a0 => rw [e3 a0 h1 h2 hf] at htrue
                       exact absurd htrue (by simp)
          | none =>
            cases hg : assigned_orders.find?
                (fun a => !(has_sufficient_buffer order a config)) with
            | some a0 => rw [e4 a0 h1 h2 hf hg] at htrue
                         exact absurd htrue (by simp)
            | none =>
              refine ⟨h1, rfl, ?_, ?_⟩
              · intro a ha
                simpa using List.find?_eq_none.mp hf a ha
              · intro a ha
                simpa using List.find?_eq_none.mp hg a ha
      · rw [e1 h1] at htrue
        exact absurd htrue (by simp)
    · rintro ⟨h1, h2, hnc, hb⟩
      have hf : assigned_orders.find?
          (fun a => check_time_conflict order a) = none := by
        rw [List.find?_eq_none]
        intro x hx
        simp [hnc x hx]
      have hg : assigned_orders.find?
          (fun a => !(has_sufficient_buffer order a config)) = none := by
        rw [List.find?_eq_none]
        intro x hx
        simp [hb x hx]
      rw [e5 h1 h2 hf hg]
  · rintro h1 h2 ⟨a, ha, hc⟩
    cases hf : assigned_orders.find?
        (fun a => check_time_conflict order a) with
    | none =>
      have := List.find?_eq_none.mp hf a ha
      simp [hc] at this
    | some a0 => exact ⟨a0.order_id, e3 a0 h1 h2 hf⟩
  · rintro h1 h2 hnc ⟨a, ha, hb⟩
    have hf : assigned_orders.find?
        (fun a => check_time_conflict order a) = none := by
      rw [List.find?_eq_none]
      intro x hx
      simp [hnc x hx]
    cases hg : assigned_orders.find?
        (fun a => !(has_sufficient_buffer order a config)) with
    | none =>
      have := List.find?_eq_none.mp hg a ha
      simp [hb] at this
    | some a0 => exact ⟨a0.order_id, e4 a0 h1 h2 hf hg⟩

/-- Witness for C2: a concrete feasible call, derived through the rule-order
theorem. -/
theorem feasibility_rule_order_witness :
    (validate_order_feasibility orderC driverD [] cfg15).1 = true :=
  (feasibility_rule_order orderC driverD [] cfg15).1.mpr (by decide)

/-- C4: the priority score is exactly 100 for vip+wedding, 90 for vip only,
80 for wedding only, 60 for corporate with early_setup, 50 for corporate
only, 30 otherwise; and the classifier puts every order of its input into
exactly one of the five buckets, following first-match-wins precedence
vip_wedding → vip → wedding → corporate → regular. -/
theorem priority_score_and_partition (o : Order) (orders : List Order)
    (h : o ∈ orders) :
    (("vip" ∈ o.tags ∧ "wedding" ∈ o.tags → get_order_priority o = 100) ∧
      ("vip" ∈ o.tags ∧ "wedding" ∉ o.tags → get_order_priority o = 90) ∧
      ("wedding" ∈ o.tags ∧ "vip" ∉ o.tags → get_order_priority o = 80) ∧
      ("vip" ∉ o.tags ∧ "wedding" ∉ o.tags ∧ "corporate" ∈ o.tags ∧
        "early_setup" ∈ o.tags → get_order_priority o = 60) ∧
      ("vip" ∉ o.tags ∧ "wedding" ∉ o.tags ∧ "corporate" ∈ o.tags ∧
        "early_setup" ∉ o.tags → get_order_priority o = 50) ∧
      ("vip" ∉ o.tags ∧ "wedding" ∉ o.tags ∧ "corporate" ∉ o.tags →
        get_order_priority o = 30)) ∧
    ((o ∈ (categorize_orders_by_priority orders).vip_wedding ↔
        ("vip" ∈ o.tags ∧ "wedding" ∈ o.tags)) ∧
      (o ∈ (categorize_orders_by_priority orders).vip ↔
        ("vip" ∈ o.tags ∧ "wedding" ∉ o.tags)) ∧
      (o ∈ (categorize_orders_by_priority orders).wedding ↔
        ("wedding" ∈ o.tags ∧ "vip" ∉ o.tags)) ∧
      (o ∈ (categorize_orders_by_priority orders).corporate ↔
        ("corporate" ∈ o.tags ∧ "vip" ∉ o.tags ∧ "wedding" ∉ o.tags)) ∧
      (o ∈ (categorize_orders_by_priority orders).regular ↔
        ("vip" ∉ o.tags ∧ "wedding" ∉ o.tags ∧ "corporate" ∉ o.tags))) ∧
    ([(categorize_orders_by_priority orders).vip_wedding,
        (categorize_orders_by_priority orders).vip,
        (categorize_orders_by_priority orders).wedding,
        (categorize_orders_by_priority orders).corporate,
        (categorize_orders_by_priority orders).regular].countP
      (fun l => decide (o ∈ l)) = 1) := by
  have hmem : ∀ p : Order → Bool,
      (o ∈ orders.filter p ↔ p o = true) := by
    intro p
    rw [List.mem_filter]
    exact ⟨fun hp => hp.2, fun hp => ⟨h, hp⟩⟩
  rw [categorize_eq_filters]
  refine ⟨?_, ?_, ?_⟩
  · unfold get_order_priority
    dsimp only
    split_ifs <;> refine ⟨?_, ?_, ?_, ?_, ?_, ?_⟩ <;> intro hc <;>
      first | rfl | tauto
  · refine ⟨?_, ?_, ?_, ?_, ?_⟩ <;> rw [hmem] <;> simp
  · by_cases hv : "vip" ∈ o.tags <;> by_cases hw : "wedding" ∈ o.tags <;>
      by_cases hc : "corporate" ∈ o.tags <;>
      simp [List.countP_cons, hmem, hv, hw, hc]

/-- C5 counterexample: two per-stage allocations for the same driver with
reasoning strings "first reason" then "second reason" merge into a single
Assignment whose reasoning is "first reason" — the merge keeps the FIRST
allocation's reasoning, not the last non-empty one, refuting the claim's
"last non-empty reasoning string". -/
theorem merge_keeps_first_reasoning_counterexample :
    merge_allocations [exAllocR1, exAllocR2] =
      some [⟨exDriver4, [exOrder1, exOrder2], "first reason", 50⟩] ∧
    "first reason" ≠ "second reason" := by
  constructor
  · simp [merge_allocations, mergeStep, alookup, upsert, utilizationOf,
      exAllocR1, exAllocR2, exDriver4, exOrder1, exOrder2, List.mapM,
      List.mapM.loop, List.insertionSort, List.orderedInsert]
    norm_num
  · decide

/-- C5 (amended): merging per-stage partial allocations whose order lists are
non-empty (as every stage emits) and whose drivers have usable capacity (as
feasibility guarantees for every committed driver) yields exactly one
Assignment per driver that received at least one order, whose order list is
the concatenation of that driver's per-stage lists in commit order, and whose
reasoning string is the FIRST allocation's reasoning string for that driver
(not the last non-empty one). -/
theorem merge_one_assignment_per_driver (allocs : List StageAlloc)
    (hne : ∀ a ∈ allocs, a.orders ≠ [])
    (hdiv : ∀ a ∈ allocs, a.driver.max_orders_per_day.getD 1 ≠ 0) :
    ∃ merged, merge_allocations allocs = some merged ∧
      (∀ did : String,
        merged.countP (fun f => f.driver.driver_id == did) =
          if did ∈ allocs.map (fun a => a.driver.driver_id) then 1 else 0) ∧
      (∀ f ∈ merged, f.orders ≠ [] ∧
        f.orders = joinedOrdersFor f.driver.driver_id allocs ∧
        ∃ a0, allocs.find?
            (fun a => a.driver.driver_id == f.driver.driver_id) = some a0 ∧
          f.driver = a0.driver ∧ f.reasoning = a0.reasoning) := by
  obtain ⟨merged, hm, hcount, hent⟩ := merge_allocations_spec allocs hdiv
  refine ⟨merged, hm, hcount, ?_⟩
  intro f hf
  obtain ⟨a0, hfind, ha0, hdrv, hreas, hord, -⟩ := hent f hf
  have hpred := List.find?_some hfind
  have ha0in : a0 ∈ allocsFor f.driver.driver_id allocs :=
    List.mem_filter.mpr ⟨ha0, hpred⟩
  refine ⟨?_, hord, a0, hfind, hdrv, hreas⟩
  rw [hord]
  unfold joinedOrdersFor
  intro hnil
  have := List.flatten_eq_nil_iff.mp hnil a0.orders
    (List.mem_map.mpr ⟨a0, ha0in, rfl⟩)
  exact hne a0 ha0 this

/-- Witness for C5 at a concrete two-stage merge input. -/
theorem merge_one_assignment_per_driver_witness :
    (merge_allocations [exAllocR1, exAllocR2]).isSome = true := by
  obtain ⟨merged, hm, -, -⟩ :=
    merge_one_assignment_per_driver [exAllocR1, exAllocR2]
      (by decide) (by decide)
  rw [hm]
  rfl

/-- C7 counterexample: a merged driver whose `max_orders_per_day` field is
present and equals 0 makes the source raise `ZeroDivisionError` (modelled as
`none`), whereas the claimed formula `|orders| / max(max_orders_per_day, 1) *
100` is well-defined and equals 100 there: the code divides by
`driver.get("max_orders_per_day", 1)`, whose default applies only when the
field is absent, not when it is 0. -/
theorem merge_division_error_counterexample :
    merge_allocations [exAllocZero] = none ∧
    (exAllocZero.orders.length : ℚ) /
      ((max (exAllocZero.driver.max_orders_per_day.getD 0) 1 : Nat) : ℚ) *
      100 = 100 := by
  constructor
  · simp [merge_allocations, mergeStep, alookup, upsert, utilizationOf,
      exAllocZero, exDriver0, exOrder1, List.mapM, List.mapM.loop]
  · norm_num [exAllocZero, exDriver0, exOrder1]

/-- C7 (amended): whenever every merged driver's divisor
`max_orders_per_day.getD 1` is non-zero — in particular for every driver the
orchestrator can actually commit orders to, since feasibility requires
`max_orders_per_day ≥ 1` — the merge succeeds and each utilization equals
`|orders| / max(max_orders_per_day, 1) * 100`; with the field present and
equal to 0 the computation instead raises (previous counterexample). -/
theorem utilization_formula_when_capacity_nonzero (allocs : List StageAlloc)
    (hdiv : ∀ a ∈ allocs, a.driver.max_orders_per_day.getD 1 ≠ 0) :
    ∃ merged, merge_allocations allocs = some merged ∧
      ∀ f ∈ merged, f.utilization = (f.orders.length : ℚ) /
        ((max (f.driver.max_orders_per_day.getD 0) 1 : Nat) : ℚ) * 100 := by
  obtain ⟨merged, hm, -, hent⟩ := merge_allocations_spec allocs hdiv
  refine ⟨merged, hm, ?_⟩
  intro f hf
  obtain ⟨a0, -, ha0, hdrvEq, -, -, hutil⟩ := hent f hf
  have hnz : f.driver.max_orders_per_day.getD 1 ≠ 0 := by
    rw [hdrvEq]
    exact hdiv a0 ha0
  have : f.driver.max_orders_per_day.getD 1 =
      max (f.driver.max_orders_per_day.getD 0) 1 := by
    cases hmx : f.driver.max_orders_per_day with
    | none => simp
    | some m =>
      rw [hmx] at hnz
      simp only [Option.getD_some] at hnz ⊢
      omega
  rw [hutil, this]

/-- Witness for C7 at a concrete merge input with capacity 4. -/
theorem utilization_formula_when_capacity_nonzero_witness :
    (merge_allocations [exAllocR1]).isSome = true := by
  obtain ⟨merged, hm, -⟩ :=
    utilization_formula_when_capacity_nonzero [exAllocR1] (by decide)
  rw [hm]
  rfl

theorem regionBump_fold (os : List Order) (m0 : List (String × Nat))
    (r : String) :
    (alookup (os.foldl regionBump m0) r).getD 0 =
      (alookup m0 r).getD 0 +
        os.countP (fun o => o.region.getD "unknown" == r) := by
  induction os generalizing m0 with
  | nil => simp
  | cons o rest ih =>
    rw [List.foldl_cons, ih, List.countP_cons]
    unfold regionBump
    dsimp only
    by_cases h : o.region.getD "unknown" = r
    · rw [h, alookup_upsert_self]
      simp [h]
      omega
    · rw [alookup_upsert_ne _ _ _ _ (fun he => h he.symm)]
      simp [h]

theorem regionalDistribution_fold (allocs : List FinalAlloc)
    (m0 : List (String × Nat)) (r : String) :
    (alookup (allocs.foldl (fun m a => a.orders.foldl regionBump m) m0)
        r).getD 0 =
      (alookup m0 r).getD 0 +
        ((allocs.map (fun a => a.orders)).flatten).countP
          (fun o => o.region.getD "unknown" == r) := by
  induction allocs generalizing m0 with
  | nil => simp
  | cons a rest ih =>
    rw [List.foldl_cons, ih, regionBump_fold]
    simp [List.countP_append]
    omega

/-- C6 counterexample: with zero assignments the source never writes the
`average_utilization` key (the metric is absent, modelled `none`), whereas
the claim says it equals 0. -/
theorem metrics_avg_absent_counterexample :
    (computeMetrics [exOrder1] [] []).average_utilization = none ∧
    (none : Option ℚ) ≠ some 0 := by
  constructor
  · rfl
  · decide

/-- C6 (amended): `allocation_rate = allocated / total * 100` (0 when there
are no input orders); `average_utilization` is the mean of the per-driver
utilizations when at least one assignment exists, and is ABSENT (the key is
never written, modelled `none`) when there are none, rather than 0; each
region's entry in `regional_distribution` counts the allocated orders whose
region (defaulted to "unknown") equals it. -/
theorem metrics_spec (orders : List Order) (allocations : List FinalAlloc)
    (allocated_order_ids : List String) :
    (orders = [] →
      (computeMetrics orders allocations allocated_order_ids).allocation_rate
        = 0) ∧
    (orders ≠ [] →
      (computeMetrics orders allocations allocated_order_ids).allocation_rate
        = (allocated_order_ids.length : ℚ) / (orders.length : ℚ) * 100) ∧
    (allocations = [] →
      (computeMetrics orders allocations
        allocated_order_ids).average_utilization = none) ∧
    (allocations ≠ [] →
      (computeMetrics orders allocations
          allocated_order_ids).average_utilization =
        some ((allocations.map (fun a => a.utilization)).sum /
          (allocations.length : ℚ))) ∧
    (∀ r : String,
      (alookup (computeMetrics orders allocations
          allocated_order_ids).regional_distribution r).getD 0 =
        ((allocations.map (fun a => a.orders)).flatten).countP
          (fun o => o.region.getD "unknown" == r)) := by
  refine ⟨?_, ?_, ?_, ?_, ?_⟩
  · intro h
    subst h
    rfl
  · intro h
    unfold computeMetrics
    dsimp only
    rw [if_pos (by simpa [List.length_pos] using h)]
  · intro h
    subst h
    rfl
  · intro h
    unfold computeMetrics
    dsimp only
    rw [if_neg (by simpa using h)]
  · intro r
    unfold computeMetrics regionalDistribution
    dsimp only
    simpa [alookup_nil] using regionalDistribution_fold allocations [] r

/-- Witness for C6: concrete empty-assignment metrics carry no
average-utilization value. -/
theorem metrics_spec_witness :
    (computeMetrics [exOrder1] [] []).average_utilization = none :=
  (metrics_spec [exOrder1] [] []).2.2.1 rfl

theorem alookup_append_none {α : Type} (m1 m2 : List (String × α))
    (k : String) (h : alookup m1 k = none) :
    alookup (m1 ++ m2) k = alookup m2 k := by
  induction m1 with
  | nil => simp
  | cons p rest ih =>
    obtain ⟨k0, v0⟩ := p
    rw [alookup_cons] at h
    by_cases h0 : k0 = k
    · rw [if_pos h0] at h
      simp at h
    · rw [if_neg h0] at h
      rw [List.cons_append, alookup_cons, if_neg h0]
      exact ih h

theorem find_time_conflicts_nil (os : List Order)
    (h : os.Pairwise (fun x y => check_time_conflict x y = false)) :
    find_time_conflicts_in_orders os = [] := by
  induction os with
  | nil => rfl
  | cons o rest ih =>
    rw [List.pairwise_cons] at h
    unfold find_time_conflicts_in_orders
    rw [ih h.2, List.append_nil, List.map_eq_nil_iff,
      List.filter_eq_nil_iff]
    intro o2 h2
    simp [h.1 o2 h2]

theorem seenStep_fold_clean (did : String) (os : List Order)
    (seen : List (String × String)) (errs : List ValError)
    (hnd : (os.map Order.order_id).Nodup)
    (hdisj : ∀ o ∈ os, alookup seen o.order_id = none) :
    os.foldl (seenStep did) (seen, errs) =
      (seen ++ os.map (fun o => (o.order_id, did)), errs) := by
  induction os generalizing seen with
  | nil => simp
  | cons o rest ih =>
    simp only [List.map_cons, List.nodup_cons] at hnd
    rw [List.foldl_cons]
    have h1 : seenStep did (seen, errs) o =
        (seen ++ [(o.order_id, did)], errs) := by
      unfold seenStep
      rw [hdisj o (by simp)]
    rw [h1, ih (seen ++ [(o.order_id, did)]) hnd.2 ?_]
    · simp
    · intro o2 ho2
      rw [alookup_append_none _ _ _ (hdisj o2 (by simp [ho2]))]
      rw [alookup_cons, if_neg ?_, alookup_nil]
      intro he
      exact hnd.1 (he ▸ List.mem_map.mpr ⟨o2, ho2, rfl⟩)

theorem dup_scan_clean (allocs : List FinalAlloc)
    (seen : List (String × String)) (errs : List ValError)
    (hnd : ((allocs.map (fun a => a.orders.map Order.order_id)).flatten).Nodup)
    (hdisj : ∀ oid ∈ (allocs.map
        (fun a => a.orders.map Order.order_id)).flatten,
      alookup seen oid = none) :
    (allocs.foldl duplicateScanStep (seen, errs)).2 = errs := by
  induction allocs generalizing seen with
  | nil => rfl
  | cons a rest ih =>
    simp only [List.map_cons, List.flatten_cons] at hnd hdisj
    have hsplit : ((rest.map
        (fun a => a.orders.map Order.order_id)).flatten).Nodup :=
      hnd.of_append_right
    rw [List.foldl_cons]
    unfold duplicateScanStep
    rw [seenStep_fold_clean a.driver.driver_id a.orders seen errs
      (hnd.of_append_left) (fun o ho => hdisj o.order_id
        (List.mem_append_left _ (List.mem_map.mpr ⟨o, ho, rfl⟩)))]
    refine ih _ hsplit ?_
    intro oid hoid
    rw [alookup_append_none _ _ _ (hdisj oid (List.mem_append_right _ hoid))]
    rw [alookup_none_not_mem_keys]
    intro hkey
    have : oid ∈ a.orders.map Order.order_id := by
      simpa using hkey
    exact (List.disjoint_of_nodup_append hnd) this hoid

/-- C10: the post-hoc validator re-checks capacity, capability, overlap and
duplicates but never the minimum buffer: any allocation result that is clean
on those four counts validates as True even when a pair of same-driver orders
violates the configured minimum buffer. -/
theorem validator_ignores_buffer (config : Config)
    (allocations : List FinalAlloc)
    (hcap : ∀ a ∈ allocations,
      a.orders.length ≤ a.driver.max_orders_per_day.getD 0)
    (hcapb : ∀ a ∈ allocations, ∀ o ∈ a.orders,
      has_required_capabilities a.driver o = true)
    (hover : ∀ a ∈ allocations,
      a.orders.Pairwise (fun x y => check_time_conflict x y = false))
    (hdup : ((allocations.map
        (fun a => a.orders.map Order.order_id)).flatten).Nodup)
    (hbuf : ∃ a ∈ allocations, ∃ o1 ∈ a.orders, ∃ o2 ∈ a.orders,
      o1 ≠ o2 ∧ has_sufficient_buffer o1 o2 config = false) :
    validate_allocation allocations = true := by
  have hdrv : ∀ a ∈ allocations, validate_driver_allocation a = [] := by
    intro a ha
    unfold validate_driver_allocation
    dsimp only
    rw [if_neg (by have := hcap a ha; omega)]
    rw [List.filter_eq_nil_iff.mpr (fun o ho => by simp [hcapb a ha o ho])]
    rw [find_time_conflicts_nil a.orders (hover a ha)]
    by_cases h1 : a.orders.length > 1
    · rw [if_pos h1]
      rfl
    · rw [if_neg h1]
      rfl
  unfold validate_allocation validationErrors check_duplicate_assignments
  rw [dup_scan_clean allocations [] [] hdup (by intro oid h; rfl)]
  rw [List.flatten_eq_nil_iff.mpr ?_]
  · rfl
  · intro l hl
    obtain ⟨a, ha, rfl⟩ := List.mem_map.mp hl
    exact hdrv a ha

/-- Witness for C10: a concrete allocation whose two orders violate the
15-minute buffer (gap of 10 minutes) still validates as True. -/
theorem validator_ignores_buffer_witness :
    validate_allocation [exFinalBuf] = true :=
  validator_ignores_buffer cfg15 [exFinalBuf] (by decide) (by decide)
    (by decide) (by decide)
    ⟨exFinalBuf, by decide, exOrderB1, by decide, exOrderB2, by decide,
      by decide, by decide⟩

theorem foldl_congr_fun {α β : Type} (f g : α → β → α) (l : List β)
    (h : ∀ b ∈ l, ∀ a, f a b = g a b) :
    ∀ a, l.foldl f a = l.foldl g a := by
  induction l with
  | nil => intro a; rfl
  | cons b rest ih =>
    intro a
    rw [List.foldl_cons, List.foldl_cons, h b (by simp)]
    exact ih (fun b2 hb2 a2 => h b2 (by simp [hb2]) a2) _

theorem runStage_empty_orders (config : Config) (P : Proposer)
    (s : AllocState) (st : StageSpec) (h : st.orders = []) :
    runStage config P s st = s := by
  unfold runStage
  rw [if_pos (by simp [h])]

theorem runStage_proposer_error (config : Config) (P : Proposer)
    (s : AllocState) (st : StageSpec)
    (h : ∀ os ds am, P st.name os ds am = Except.error ()) :
    runStage config P s st = s := by
  unfold runStage
  dsimp only
  by_cases h1 : st.orders.isEmpty
  · rw [if_pos h1]
  · rw [if_neg h1]
    by_cases h2 : (driversWithCapacity s st.pool).isEmpty
    · rw [if_pos h2]
    · rw [if_neg h2, h st.orders (driversWithCapacity s st.pool) s.assignMap]

theorem runStage_proposer_ok_nil (config : Config) (P : Proposer)
    (s : AllocState) (st : StageSpec)
    (h : ∀ os ds am, P st.name os ds am = Except.ok []) :
    runStage config P s st = s := by
  unfold runStage
  dsimp only
  by_cases h1 : st.orders.isEmpty
  · rw [if_pos h1]
  · rw [if_neg h1]
    by_cases h2 : (driversWithCapacity s st.pool).isEmpty
    · rw [if_pos h2]
    · rw [if_neg h2, h st.orders (driversWithCapacity s st.pool) s.assignMap]
      rfl

theorem runStage_congr (config : Config) (P P2 : Proposer) (st : StageSpec)
    (h : ∀ os ds am, P st.name os ds am = P2 st.name os ds am)
    (s : AllocState) :
    runStage config P s st = runStage config P2 s st := by
  unfold runStage
  dsimp only
  rw [h st.orders (driversWithCapacity s st.pool) s.assignMap]

theorem get_unallocation_reason_ne_empty (order : Order)
    (drivers : List Driver) (am : List (String × List Order)) :
    get_unallocation_reason order drivers am ≠ "" := by
  unfold get_unallocation_reason
  dsimp only
  split_ifs <;> decide

/-- Partition invariant of `allocate_orders`: every input order is either in
the allocated-id set or annotated unallocated with a non-empty reason. -/
theorem allocate_orders_partition (config : Config) (P : Proposer)
    (orders : List Order) (drivers : List Driver)
    (catOrders : List (String × List Order)) (cd : DriverCategories) :
    ∀ o ∈ orders,
      o.order_id ∈
        (allocate_orders config P orders drivers catOrders cd).allocated_order_ids ∨
      ∃ r, (o, r) ∈
          (allocate_orders config P orders drivers catOrders cd).unallocated ∧
        r ≠ "" := by
  intro o ho
  unfold allocate_orders
  dsimp only
  by_cases hm : o.order_id ∈
      ((stagePlan catOrders cd drivers).foldl (runStage config P)
        ⟨drivers.foldl (fun m d => upsert m d.driver_id []) [], [], []⟩).allocatedIds
  · exact Or.inl hm
  · refine Or.inr ⟨get_unallocation_reason o drivers
      ((stagePlan catOrders cd drivers).foldl (runStage config P)
        ⟨drivers.foldl (fun m d => upsert m d.driver_id []) [], [], []⟩).assignMap,
      ?_, get_unallocation_reason_ne_empty o drivers _⟩
    exact List.mem_map.mpr ⟨o, List.mem_filter.mpr ⟨ho, by simpa using hm⟩, rfl⟩

/-- C8: a stage whose proposer raises (or returns an unparsable response)
contributes zero allocations — the run is indistinguishable from one whose
proposer returned an empty proposal list for that stage — and the
orchestrator is total: every input order ends up either committed (its id in
the allocated set) or in the unallocated list with a non-empty reason. -/
theorem proposer_failure_degrades (config : Config) (P : Proposer)
    (orders : List Order) (drivers : List Driver) (sname : String)
    (herr : ∀ os ds am, P sname os ds am = Except.error ()) :
    runPipeline config P orders drivers =
      runPipeline config
        (fun n os ds am => if n = sname then Except.ok [] else P n os ds am)
        orders drivers ∧
    ∀ o ∈ orders,
      o.order_id ∈
        (runPipeline config P orders drivers).allocated_order_ids ∨
      ∃ r, (o, r) ∈ (runPipeline config P orders drivers).unallocated ∧
        r ≠ "" := by
  constructor
  · have hst : ∀ st : StageSpec, ∀ s, runStage config P s st =
        runStage config
          (fun n os ds am => if n = sname then Except.ok [] else P n os ds am)
          s st := by
      intro st s
      by_cases hn : st.name = sname
      · rw [runStage_proposer_error config P s st
          (fun os ds am => by rw [hn]; exact herr os ds am)]
        rw [runStage_proposer_ok_nil config _ s st
          (fun os ds am => by rw [hn]; simp)]
      · exact runStage_congr config P _ st
          (fun os ds am => by simp [hn]) s
    unfold runPipeline allocate_orders
    dsimp only
    rw [foldl_congr_fun (runStage config P)
      (runStage config
        (fun n os ds am => if n = sname then Except.ok [] else P n os ds am))
      (stagePlan (preprocessOrders orders) (categorizeDrivers drivers)
        drivers)
      (fun st _ s => hst st s)]
  · exact allocate_orders_partition config P orders drivers
      (preprocessOrders orders) (categorizeDrivers drivers)

/-- Witness for C8 at a concrete always-failing proposer. -/
theorem proposer_failure_degrades_witness :
    exOrder1.order_id ∈
      (runPipeline cfg15 proposerFail [exOrder1]
        [exDriver1]).allocated_order_ids ∨
    ∃ r, (exOrder1, r) ∈
        (runPipeline cfg15 proposerFail [exOrder1] [exDriver1]).unallocated ∧
      r ≠ "" :=
  (proposer_failure_degrades cfg15 proposerFail [exOrder1] [exDriver1]
    "Regular Orders" (fun _ _ _ => rfl)).2 exOrder1 (by decide)

/-- C9: the second stage reads category key "vip_corporate", which the order
classifier never produces — the categorized dict has exactly the keys
vip_wedding, vip, wedding, corporate, regular — so stage 2 always receives an
empty order list and leaves the allocation state untouched, for every input. -/
theorem stage_two_vip_corporate_always_empty (orders : List Order)
    (drivers : List Driver) (config : Config) (P : Proposer)
    (cd : DriverCategories) :
    alookup (categorize_orders_by_priority orders).toDict "vip_corporate" =
      none ∧
    ∃ spec, (stagePlan (preprocessOrders orders) cd drivers)[1]? =
        some spec ∧
      spec.name = "VIP Corporate Orders" ∧ spec.orders = [] ∧
      ∀ s : AllocState, runStage config P s spec = s := by
  have h1 : alookup (categorize_orders_by_priority orders).toDict
      "vip_corporate" = none := by
    unfold OrderCategories.toDict alookup
    simp
  have h2 : lookupD (preprocessOrders orders) "vip_corporate" = [] := by
    unfold lookupD preprocessOrders OrderCategories.toDict alookup
    simp
  refine ⟨h1, ⟨_, rfl, rfl, h2, ?_⟩⟩
  intro s
  exact runStage_empty_orders config P s _ h2

/-- C1 failing run: the proposer proposes order O1 to both D1 and D2 within
the regular stage; `_parse_ai_allocations` never consults the already
allocated ids, so O1 is committed to BOTH drivers' lists — the final result
double-books O1 (it appears in two Assignments, violating the at-most-one
invariant and the exactly-one partition), and the code's own post-hoc
validator rejects the orchestrator's output as invalid. -/
theorem double_booking_failing_run :
    ((runPipeline cfg15 proposerDup [exOrder1]
        [exDriver1, exDriver2]).allocations.getD []).map
      (fun f => (f.driver.driver_id, f.orders.map Order.order_id)) =
      [("D1", ["O1"]), ("D2", ["O1"])] ∧
    (runPipeline cfg15 proposerDup [exOrder1]
      [exDriver1, exDriver2]).unallocated = [] ∧
    validate_allocation
      ((runPipeline cfg15 proposerDup [exOrder1]
        [exDriver1, exDriver2]).allocations.getD []) = false := by
  refine ⟨?_, ?_, ?_⟩ <;>
    simp [runPipeline, allocate_orders, stagePlan, runStage, preprocessOrders,
      categorize_orders_by_priority, categorizeStep, OrderCategories.toDict,
      categorizeDrivers, sortByPriorityDesc, List.insertionSort,
      List.orderedInsert, lookupD, alookup, upsert, driversWithCapacity,
      assignedOf, proposerDup, parse_ai_allocations, parseProposalStep,
      commitStep, buildMap, validate_order_feasibility,
      has_required_capabilities, check_time_conflict, has_sufficient_buffer,
      addId, merge_allocations, mergeStep, utilizationOf, exOrder1, exDriver1,
      exDriver2, cfg15, List.mapM, List.mapM.loop, get_unallocation_reason,
      validate_allocation, validationErrors, validate_driver_allocation,
      find_time_conflicts_in_orders, check_duplicate_assignments,
      duplicateScanStep, seenStep]

/-- Witness for C4 at a concrete wedding-tagged order. -/
theorem priority_score_and_partition_witness :
    [(categorize_orders_by_priority [orderC]).vip_wedding,
      (categorize_orders_by_priority [orderC]).vip,
      (categorize_orders_by_priority [orderC]).wedding,
      (categorize_orders_by_priority [orderC]).corporate,
      (categorize_orders_by_priority [orderC]).regular].countP
      (fun l => decide (orderC ∈ l)) = 1 :=
  (priority_score_and_partition orderC [orderC] (by decide)).2.2

end Dispatch
